import Mathlib

/-!
Verification of the folder-scan utility (`scan.py`).

The program walks a directory tree with `os.walk`, accumulates statistics
over the regular files it encounters (`scan_folder`, lines 20-81), and
renders them as a text report (`build_report`, lines 84-150), with a
byte-size formatter (`format_size`, lines 11-17) and a CLI wrapper
(`main`, lines 153-183).

Shallow embedding choices:
* The filesystem input of `scan_folder` is modelled as the sequence of
  `(root, files)` pairs yielded by `os.walk(folder_path)` (the `dirs`
  component of each triple is ignored by the source, line 38).  The two
  nested `for` loops of lines 38-39 traverse exactly this sequence.
* A directory entry carries its base name and either `some (size, mtime)`
  (the values returned by `os.path.getsize` / `os.path.getmtime`) or
  `none` when reading them raises `OSError` (lines 46-50).
* Python `Counter` objects are modelled as association lists in insertion
  order, matching dict iteration order.
* Python sizes are naturals, modification times are integers.
-/

set_option maxHeartbeats 1000000
set_option maxRecDepth 100000

namespace Scan

/-- A directory entry seen during the walk: its base name, and
`some (size, mtime)` if `os.path.getsize`/`os.path.getmtime` succeed on it,
`none` if either raises `OSError` (lines 46-50 of `scan.py`). -/
structure FileEntry where
  name : String
  stat : Option (Nat × Int)
deriving DecidableEq, Repr

/-- The output of `os.walk(folder_path)`: for each visited directory, its
path (`root`) and the list of file names it directly contains (`files`).
The `dirs` component of each triple is unused by the source (line 38). -/
abbrev FS := List (String × List FileEntry)

/-- An element of the `all_files` working list (line 63):
`(filepath, mtime, size)`. -/
structure FileRec where
  path : String
  mtime : Int
  size : Nat
deriving DecidableEq, Repr

/-- The dict returned by `scan_folder` (lines 71-81). -/
structure ScanStats where
  total_files : Nat
  total_size : Nat
  largest_file : Option String
  largest_size : Nat
  ext_counter : List (String × Nat)
  ext_sizes : List (String × Nat)
  newest_files : List FileRec
  oldest_files : List FileRec
  duplicates : List (String × Nat)
deriving DecidableEq, Repr

/-- The extension part of `os.path.splitext(name)` (CPython
`genericpath._splitext` with no path separator present in `name`, which
holds for the base names yielded by `os.walk`): the suffix starting at the
last dot, provided some character strictly before that dot is not itself a
dot; otherwise the empty string. -/
def extOf (name : String) : String :=
  let cs := name.toList
  match cs.reverse.findIdx? (fun c => c = '.') with
  | none => ""
  | some ri =>
    let dotIdx := cs.length - 1 - ri
    if (cs.take dotIdx).any (fun c => c ≠ '.') then
      String.mk (cs.drop dotIdx)
    else ""

/-- Line 40: `os.path.splitext(name)[1].lower() or "(no extension)"`. -/
def extKey (name : String) : String :=
  let e := String.mk ((extOf name).toList.map Char.toLower)
  if e = "" then "(no extension)" else e

/-- Does `s` start with the character `c`? -/
def strHeadIs (c : Char) (s : String) : Bool :=
  match s.toList with
  | [] => false
  | a :: _ => a = c

/-- Does `s` end with the character `c`? -/
def strLastIs (c : Char) (s : String) : Bool :=
  match s.toList.reverse with
  | [] => false
  | a :: _ => a = c

/-- Model of `os.path.join(root, name)` for the POSIX flavour used during the walk
(line 45). -/
def joinPath (root name : String) : String :=
  if strHeadIs '/' name then name
  else if root = "" then name
  else if strLastIs '/' root then root ++ name
  else root ++ "/" ++ name

/-- Truthiness of the `filter_exts` argument (`None` or a Python set,
modelled as an optional list of its elements): `None` and the empty set are
falsy, so line 42 skips its membership test for both. -/
def filterActive : Option (List String) → Bool
  | none => false
  | some l => !l.isEmpty

/-- Line 42: `if filter_exts and ext not in filter_exts: continue`. -/
def skipByFilter (filt : Option (List String)) (ext : String) : Bool :=
  match filt with
  | none => false
  | some l => !l.isEmpty && !l.contains ext

/-- A `Counter` update `c[k] += v`: add `v` to the first entry with key `k`,
or append `(k, v)` when the key is absent (a missing key counts as 0, and
dicts append new keys at the end). -/
def incr : List (String × Nat) → String → Nat → List (String × Nat)
  | [], k, v => [(k, v)]
  | (k', v') :: t, k, v =>
    if k' = k then (k', v' + v) :: t else (k', v') :: incr t k v

/-- The mutable accumulators of `scan_folder` (lines 28-36). -/
structure ScanState where
  total_files : Nat
  total_size : Nat
  largest_file : Option String
  largest_size : Nat
  ext_counter : List (String × Nat)
  ext_sizes : List (String × Nat)
  name_counter : List (String × Nat)
  all_files : List FileRec
deriving DecidableEq, Repr

/-- Initial accumulator values (lines 28-36). -/
def initState : ScanState := ⟨0, 0, none, 0, [], [], [], []⟩

/-- The flattened iteration of the two nested loops of lines 38-39: each
walked directory contributes `(root, entry)` for each of its files, in
order. -/
def walkedEntries (fs : FS) : List (String × FileEntry) :=
  fs.flatMap (fun rf => rf.2.map (fun fe => (rf.1, fe)))

/-- One iteration of the inner loop body (lines 40-63) on the accumulator
state. -/
def processFile (filt : Option (List String)) (s : ScanState)
    (e : String × FileEntry) : ScanState :=
  let ext := extKey e.2.name
  if skipByFilter filt ext then s
  else
    let filepath := joinPath e.1 e.2.name
    match e.2.stat with
    | none => s
    | some sm =>
      { total_files := s.total_files + 1
        total_size := s.total_size + sm.1
        largest_file := if sm.1 > s.largest_size then some filepath else s.largest_file
        largest_size := if sm.1 > s.largest_size then sm.1 else s.largest_size
        ext_counter := incr s.ext_counter ext 1
        ext_sizes := incr s.ext_sizes ext sm.1
        name_counter := incr s.name_counter e.2.name 1
        all_files := s.all_files ++ [⟨filepath, sm.2, sm.1⟩] }

/-- Comparison used to model line 65, `all_files.sort(key=lambda f: f[1])`:
Python's `list.sort` is stable, and a stable sort by the key `mtime` is
exactly the sort by the injective key `(mtime, original position)` compared
lexicographically. -/
def lexLe (a b : Nat × FileRec) : Prop :=
  a.2.mtime < b.2.mtime ∨ (a.2.mtime = b.2.mtime ∧ a.1 ≤ b.1)

instance : DecidableRel lexLe := fun _ _ =>
  inferInstanceAs (Decidable (_ ∨ _))

instance : IsTotal (Nat × FileRec) lexLe :=
  ⟨fun a b => by unfold lexLe; omega⟩

instance : IsTrans (Nat × FileRec) lexLe :=
  ⟨fun a b c hab hbc => by unfold lexLe at *; omega⟩

/-- Line 65: sort `all_files` by modification time, stably. -/
def sortFiles (l : List FileRec) : List FileRec :=
  (l.enum.insertionSort lexLe).map Prod.snd

/-- Lines 28-69 of `scan_folder`: the traversal, the stable sort, the two
slices (`all_files[:5]`, `all_files[-5:][::-1]`) and the duplicate filter.
The record built here is the one the dict literal of lines 71-81 clearly
intends to return; the source as written never returns it, because the
value expression at line 78 is the never-assigned name `newest_files`
(line 67 assigns `new_files`), so the actual `scan_folder` raises
`NameError` — see `scan_folder` below. -/
def scan_folder_fixed (fs : FS) (filt : Option (List String)) : ScanStats :=
  let s := (walkedEntries fs).foldl (processFile filt) initState
  let sorted := sortFiles s.all_files
  let oldest_files := sorted.take 5
  let new_files := (sorted.drop (sorted.length - 5)).reverse
  { total_files := s.total_files
    total_size := s.total_size
    largest_file := s.largest_file
    largest_size := s.largest_size
    ext_counter := s.ext_counter
    ext_sizes := s.ext_sizes
    newest_files := new_files
    oldest_files := oldest_files
    duplicates := s.name_counter.filter (fun p => 1 < p.2) }

/-- The runtime error raised by `scan_folder` as written. -/
inductive PyError where
  | nameErrorNewestFiles
deriving DecidableEq, Repr

/-- Model of `scan_folder` exactly as written (lines 20-81): the loop and the
post-processing of lines 28-69 complete, but evaluating the dict literal of
lines 71-81 reads the name `newest_files` (line 78), which is assigned
nowhere in the function and does not exist as a module global (line 67
assigns `new_files` instead), so every call raises
`NameError: name 'newest_files' is not defined`. -/
def scan_folder (fs : FS) (filt : Option (List String)) :
    Except PyError ScanStats :=
  let _ := scan_folder_fixed fs filt
  Except.error PyError.nameErrorNewestFiles

/-! ### Unreadable entries and the CLI wrapper -/

/-- Remove every entry whose metadata reads fail (`stat = none`), leaving
the rest of the walk untouched. -/
def stripUnreadable (fs : FS) : FS :=
  fs.map (fun rf => (rf.1, rf.2.filter (fun fe => fe.stat.isSome)))

/-- How a run of the CLI wrapper can terminate early. -/
inductive RunError where
  | invalidRoot
  | uncaught (e : PyError)
deriving DecidableEq, Repr

/-- The scan part of `main` (lines 165-175) exactly as written: exit with
an error when `os.path.isdir(folder)` is false (lines 166-168, which also
covers a nonexistent path), otherwise call `scan_folder` — which, as
written, raises `NameError` (uncaught, so it crashes the run).  Report
rendering and file output (lines 176-183) are outside this model. -/
def run_main (isdir : Bool) (fs : FS) (filt : Option (List String)) :
    Except RunError ScanStats :=
  if isdir then
    match scan_folder fs filt with
    | Except.ok st => Except.ok st
    | Except.error e => Except.error (RunError.uncaught e)
  else Except.error RunError.invalidRoot

/-- The scan part of `main` with the line-78 `NameError` of `scan_folder`
repaired (see `scan_folder_fixed`). -/
def run_main_fixed (isdir : Bool) (fs : FS) (filt : Option (List String)) :
    Except RunError ScanStats :=
  if isdir then Except.ok (scan_folder_fixed fs filt)
  else Except.error RunError.invalidRoot

/-! ### Byte-size formatting (`format_size`, lines 11-17)

`format_size` computes with Python binary floats.  For a byte count
`n < 2^53` the whole pipeline is exact: `n` converts to a double without
rounding, and dividing a double by 1024 only shifts its exponent, so after
`k` divisions `size_bytes` holds exactly the rational `n / d` with
`d = 1024^k`.  The model carries that rational as the pair `(n, d)`; the
loop test `size_bytes < 1024` is `n < 1024 * d`, and `f"{x:.2f}"` rounds
the exact value to two decimals, ties to even.  For `n ≥ 2^53` the
int-to-float conversion itself rounds `n` and the printed decimals can
differ from the exact rational (e.g. 1152927134106381188 bytes prints
"1024.01 PB" while the exact value rounds to "1024.00 PB"), so the model
is faithful only below `2^53` and the C8 theorem hypothesizes that
bound. -/

/-- Rendering `f"{x:.2f}"` for the exact nonnegative value `num / den`
(`den > 0`): round `100 * num / den` to the nearest integer, ties to the
even neighbour, and print with two decimal places.  This is what Python's
float formatting prints when the double holds `num / den` exactly — true
throughout `format_size` whenever the original byte count is below `2^53`
(see the section comment); the C8 theorem carries that hypothesis. -/
def render2Frac (num den : Nat) : String :=
  let scaled := 100 * num
  let q := scaled / den
  let r := scaled % den
  let c :=
    if 2 * r < den then q
    else if den < 2 * r then q + 1
    else if q % 2 = 0 then q else q + 1
  toString (c / 100) ++ "." ++ (if c % 100 < 10 then "0" else "") ++ toString (c % 100)

/-- The loop of lines 13-16 with the running float value `size_bytes`
represented exactly as `n / d`: try each unit in turn, dividing by 1024
(`d` grows by a factor 1024), falling through to `"PB"` (line 17) when the
five named units are exhausted.  The pair `(n, d)` equals the double the
program holds exactly when `n < 2^53`; the C8 theorem is stated under that
hypothesis. -/
def format_size_go : Nat → Nat → List String → String
  | n, d, [] => render2Frac n d ++ " PB"
  | n, d, u :: us =>
    if n < 1024 * d then render2Frac n d ++ " " ++ u
    else format_size_go n (1024 * d) us

/-- Model of `format_size` (lines 11-17) on a byte count. -/
def format_size (n : Nat) : String :=
  format_size_go n 1 ["B", "KB", "MB", "GB", "TB"]

/-- Spec-side description of the unit choice, stated independently of the
loop: the first (smallest) unit among B, KB, MB, GB, TB, PB whose
1024-scaled value is below 1024, PB being used regardless when even the TB
value is not. -/
def specUnitIndex (n : Nat) : Nat :=
  if n < 1024 then 0
  else if n < 1048576 then 1
  else if n < 1073741824 then 2
  else if n < 1099511627776 then 3
  else if n < 1125899906842624 then 4
  else 5

/-- The unit names, indexed by the number of divisions performed. -/
def specUnitName : Nat → String
  | 0 => "B"
  | 1 => "KB"
  | 2 => "MB"
  | 3 => "GB"
  | 4 => "TB"
  | _ => "PB"

/-! ### The report (`build_report`, lines 84-150)

`build_report` reads three ambient quantities itself rather than taking
them as arguments: the current wall-clock time (`datetime.now()`, line 91),
the process working directory (`os.path.abspath`, line 90), and the local
timezone used to render modification times (`datetime.fromtimestamp`,
lines 111 and 122).  The model collects these in an `Env`, together with a
filesystem component that the function must never consult. -/

/-- The ambient process state visible to `build_report`. -/
structure Env where
  /-- Reading of `datetime.now().strftime('%Y-%m-%d %H:%M:%S')`, already rendered. -/
  nowStr : String
  /-- Resolution of `os.path.abspath`, whose result depends on the working directory. -/
  abspath : String → String
  /-- Rendering of `datetime.fromtimestamp(mtime).strftime(...)`: local time. -/
  renderMtime : Int → String
  /-- The ambient filesystem; `build_report` performs no I/O, so its output
  must not depend on this component. -/
  fsState : FS

/-- Formatting `f"{s:>w}"`: left-pad with spaces to width `w`. -/
def padLeft (s : String) (w : Nat) : String :=
  String.mk (List.replicate (w - s.length) ' ') ++ s

/-- Formatting `f"{s:<w}"`: right-pad with spaces to width `w`. -/
def padRight (s : String) (w : Nat) : String :=
  s ++ String.mk (List.replicate (w - s.length) ' ')

/-- String comparison for `sorted(filter_exts)` (line 93): code-point
lexicographic order, as in Python. -/
def strLe (a b : String) : Prop := a ≤ b

instance : DecidableRel strLe := fun a b =>
  inferInstanceAs (Decidable (a ≤ b))

/-- Stable descending sort by count, ties kept in input order: the order
produced both by `Counter.most_common()` (line 145) and by
`sorted(..., key=lambda x: x[1], reverse=True)` (line 135), both of which
are stable. -/
def countDescLe (a b : Nat × (String × Nat)) : Prop :=
  b.2.2 < a.2.2 ∨ (a.2.2 = b.2.2 ∧ a.1 ≤ b.1)

instance : DecidableRel countDescLe := fun _ _ =>
  inferInstanceAs (Decidable (_ ∨ _))

/-- Sort counter entries by descending count, stably. -/
def sortByCountDesc (l : List (String × Nat)) : List (String × Nat) :=
  (l.enum.insertionSort countDescLe).map Prod.snd

/-- First value stored under key `k`, if any. -/
def alGet? : List (String × Nat) → String → Option Nat
  | [], _ => none
  | (k', v) :: t, k => if k' = k then some v else alGet? t k

/-- Lookup as in `Counter.__getitem__`: a missing key reads as 0 (line 146). -/
def alGet (l : List (String × Nat)) (k : String) : Nat :=
  (alGet? l k).getD 0

/-- The line `"=" * 60`. -/
def eq60 : String := String.mk (List.replicate 60 '=')

/-- The line `"-" * 60`. -/
def dash60 : String := String.mk (List.replicate 60 '-')

/-- Model of `build_report` (lines 84-150), assembling the `lines` list in source
order and joining with newlines (line 150). -/
def build_report (folder_path : String) (stats : ScanStats)
    (filter_exts : Option (List String)) (env : Env) : String :=
  let header : List String :=
    [eq60, "FOLDER SCAN REPORT", eq60,
     "Folder:    " ++ env.abspath folder_path,
     "Scanned:   " ++ env.nowStr]
  let filterLine : List String :=
    if filterActive filter_exts then
      ["Filter:    " ++ String.intercalate ", "
        (((filter_exts.getD []).dedup).insertionSort strLe)]
    else []
  let totals : List String :=
    ["", "Total files:   " ++ toString stats.total_files,
     "Total size:    " ++ format_size stats.total_size, ""]
  let largest : List String :=
    match stats.largest_file with
    | some p =>
      if p = "" then ["Largest file:  (none)"]
      else ["Largest file:  " ++ p,
            "               " ++ format_size stats.largest_size]
    | none => ["Largest file:  (none)"]
  let fileRow : FileRec → String := fun r =>
    "  " ++ env.renderMtime r.mtime ++ "  " ++ padLeft (format_size r.size) 10
      ++ "  " ++ r.path
  let newest : List String :=
    ["", dash60, "5 NEWEST FILES (by date modified)", dash60] ++
    (if stats.newest_files.isEmpty then ["  (none)"]
     else stats.newest_files.map fileRow)
  let oldest : List String :=
    ["", dash60, "5 OLDEST FILES (by date modified)", dash60] ++
    (if stats.oldest_files.isEmpty then ["  (none)"]
     else stats.oldest_files.map fileRow)
  let dups : List String :=
    ["", dash60, "DUPLICATE FILE NAMES", dash60] ++
    (if stats.duplicates.isEmpty then ["  No duplicate file names found."]
     else
       ["  " ++ toString stats.duplicates.length ++ " duplicate name(s) found:", ""] ++
       (sortByCountDesc stats.duplicates).map (fun p =>
         "  " ++ padRight p.1 40 ++ " " ++ toString p.2 ++ " copies"))
  let extHeader : List String :=
    ["", dash60,
     padRight "Extension" 20 ++ " " ++ padLeft "Count" 8 ++ " " ++ padLeft "Total Size" 15,
     dash60]
  let extRows : List String :=
    (sortByCountDesc stats.ext_counter).map (fun p =>
      padRight p.1 20 ++ " " ++ padLeft (toString p.2) 8 ++ " "
        ++ padLeft (format_size (alGet stats.ext_sizes p.1)) 15)
  String.intercalate "\n"
    (header ++ filterLine ++ totals ++ largest ++ newest ++ oldest ++ dups ++
     extHeader ++ extRows ++ [dash60])

/-! ## Specification-level views of the traversal -/

/-- A file accepted by one iteration of the loop body: its base name and
the `(filepath, mtime, size)` record appended to `all_files`. -/
structure Item where
  name : String
  frec : FileRec
deriving DecidableEq, Repr

/-- The item contributed by a walked entry, if the loop body accepts it:
`none` when the extension filter skips it (line 42) or its metadata reads
fail (lines 46-50). -/
def itemOf? (filt : Option (List String)) (e : String × FileEntry) : Option Item :=
  if skipByFilter filt (extKey e.2.name) then none
  else
    match e.2.stat with
    | none => none
    | some sm => some ⟨e.2.name, ⟨joinPath e.1 e.2.name, sm.2, sm.1⟩⟩

/-- The accepted files of a scan, in encounter order. -/
def acceptedItems (fs : FS) (filt : Option (List String)) : List Item :=
  (walkedEntries fs).filterMap (itemOf? filt)

/-- The `(filepath, mtime, size)` records of the accepted files, in
encounter order: the contents of `all_files` after the traversal. -/
def acceptedRecs (fs : FS) (filt : Option (List String)) : List FileRec :=
  (acceptedItems fs filt).map Item.frec

/-- The base names of the accepted files, in encounter order. -/
def acceptedNames (fs : FS) (filt : Option (List String)) : List String :=
  (acceptedItems fs filt).map Item.name

/-- Number of occurrences of `n` in a list of names. -/
def countOcc (n : String) (l : List String) : Nat :=
  l.countP (fun m => m = n)

/-- The accept branch of the loop body (lines 52-63), acting on an already
accepted item. -/
def stepItem (s : ScanState) (it : Item) : ScanState :=
  let ext := extKey it.name
  { total_files := s.total_files + 1
    total_size := s.total_size + it.frec.size
    largest_file := if it.frec.size > s.largest_size then some it.frec.path else s.largest_file
    largest_size := if it.frec.size > s.largest_size then it.frec.size else s.largest_size
    ext_counter := incr s.ext_counter ext 1
    ext_sizes := incr s.ext_sizes ext it.frec.size
    name_counter := incr s.name_counter it.name 1
    all_files := s.all_files ++ [it.frec] }

/-- The final accumulator state of a scan. -/
def scanState (fs : FS) (filt : Option (List String)) : ScanState :=
  (walkedEntries fs).foldl (processFile filt) initState

/-- The indexed stable sort underlying line 65: the accepted records are
tagged with their encounter positions and sorted by `(mtime, position)`
lexicographically. -/
def sortedIdx (fs : FS) (filt : Option (List String)) : List (Nat × FileRec) :=
  (acceptedRecs fs filt).enum.insertionSort lexLe

/-! ## Fold decomposition lemmas -/

/-- Apply a step to an optional element, keeping the state when absent. -/
def applyOpt {β σ : Type} (f : σ → β → σ) (s : σ) : Option β → σ
  | none => s
  | some b => f s b

theorem processFile_eq_itemOf (filt : Option (List String)) (s : ScanState)
    (e : String × FileEntry) :
    processFile filt s e = applyOpt stepItem s (itemOf? filt e) := by
  unfold processFile itemOf? stepItem applyOpt
  by_cases h : skipByFilter filt (extKey e.2.name)
  · simp [h]
  · cases hst : e.2.stat with
    | none => simp [h, hst]
    | some sm => simp [h, hst]

theorem foldl_of_filterMap {α β σ : Type} (g : α → Option β) (f : σ → β → σ) :
    ∀ (l : List α) (s : σ),
      l.foldl (fun s a => applyOpt f s (g a)) s = (l.filterMap g).foldl f s := by
  intro l
  induction l with
  | nil => intro s; rfl
  | cons a t ih =>
    intro s
    simp only [List.foldl_cons, List.filterMap_cons]
    cases hga : g a with
    | none => simpa [hga, applyOpt] using ih s
    | some b => simpa [hga, applyOpt] using ih (f s b)

/-- The whole traversal equals the fold of the accept branch over the
accepted items. -/
theorem scanState_eq_foldl_stepItem (fs : FS) (filt : Option (List String)) :
    scanState fs filt = (acceptedItems fs filt).foldl stepItem initState := by
  have h : processFile filt = fun s e => applyOpt stepItem s (itemOf? filt e) := by
    funext s e
    exact processFile_eq_itemOf filt s e
  unfold scanState acceptedItems
  rw [h, foldl_of_filterMap (itemOf? filt) stepItem]

theorem foldl_stepItem_all_files :
    ∀ (items : List Item) (s : ScanState),
      (items.foldl stepItem s).all_files = s.all_files ++ items.map Item.frec := by
  intro items
  induction items with
  | nil => intro s; simp
  | cons it t ih =>
    intro s
    rw [List.foldl_cons, ih (stepItem s it)]
    simp [stepItem]

theorem foldl_stepItem_total_files :
    ∀ (items : List Item) (s : ScanState),
      (items.foldl stepItem s).total_files = s.total_files + items.length := by
  intro items
  induction items with
  | nil => intro s; simp
  | cons it t ih =>
    intro s
    rw [List.foldl_cons, ih (stepItem s it)]
    simp only [stepItem, List.length_cons]
    omega

theorem foldl_stepItem_total_size :
    ∀ (items : List Item) (s : ScanState),
      (items.foldl stepItem s).total_size =
        s.total_size + (items.map (fun it => it.frec.size)).sum := by
  intro items
  induction items with
  | nil => intro s; simp
  | cons it t ih =>
    intro s
    rw [List.foldl_cons, ih (stepItem s it)]
    simp only [stepItem, List.map_cons, List.sum_cons]
    omega

/-! ## Association-list (`Counter`) lemmas -/

/-- Sum of the values of a counter. -/
def sumVals (l : List (String × Nat)) : Nat :=
  (l.map Prod.snd).sum

theorem sumVals_incr (l : List (String × Nat)) (k : String) (v : Nat) :
    sumVals (incr l k v) = sumVals l + v := by
  induction l with
  | nil => simp [incr, sumVals]
  | cons p t ih =>
    obtain ⟨k1, v1⟩ := p
    by_cases h : k1 = k
    · simp only [incr, if_pos h, sumVals, List.map_cons, List.sum_cons]
      simp [sumVals] at *
      omega
    · simp only [incr, if_neg h, sumVals, List.map_cons, List.sum_cons]
      simp [sumVals] at ih
      omega

theorem alGet?_incr (l : List (String × Nat)) (k : String) (v : Nat) (n : String) :
    alGet? (incr l k v) n =
      if n = k then some (alGet l n + v) else alGet? l n := by
  induction l with
  | nil =>
    by_cases h : n = k
    · subst h; simp [incr, alGet?, alGet]
    · simp [incr, alGet?, alGet, h, Ne.symm h]
  | cons p t ih =>
    obtain ⟨k1, v1⟩ := p
    by_cases hk : k1 = k
    · subst hk
      by_cases hn : n = k1
      · subst hn; simp [incr, alGet?, alGet]
      · simp [incr, alGet?, alGet, hn, Ne.symm hn]
    · by_cases hn : n = k1
      · subst hn
        simp [incr, alGet?, alGet, hk, Ne.symm hk]
      · simp [incr, alGet?, alGet, hk, Ne.symm hn, ih]

theorem alGet_incr (l : List (String × Nat)) (k : String) (v : Nat) (n : String) :
    alGet (incr l k v) n = if n = k then alGet l n + v else alGet l n := by
  unfold alGet
  rw [alGet?_incr]
  by_cases h : n = k <;> simp [h, alGet]

theorem mem_keys_incr (l : List (String × Nat)) (k : String) (v : Nat) (n : String) :
    n ∈ (incr l k v).map Prod.fst ↔ n = k ∨ n ∈ l.map Prod.fst := by
  induction l with
  | nil => simp [incr]
  | cons p t ih =>
    obtain ⟨k1, v1⟩ := p
    by_cases h : k1 = k
    · subst h
      simp [incr]
    · simp [incr, h, ih]
      tauto

theorem keys_incr_of_mem (l : List (String × Nat)) (k : String) (v : Nat)
    (h : k ∈ l.map Prod.fst) :
    (incr l k v).map Prod.fst = l.map Prod.fst := by
  induction l with
  | nil => simp at h
  | cons p t ih =>
    obtain ⟨k1, v1⟩ := p
    by_cases hk : k1 = k
    · simp [incr, hk]
    · have hmem : k ∈ t.map Prod.fst := by
        simp only [List.map_cons, List.mem_cons] at h
        rcases h with h1 | h1
        · exact absurd h1.symm hk
        · exact h1
      simp [incr, hk, ih hmem]

theorem keys_incr_of_not_mem (l : List (String × Nat)) (k : String) (v : Nat)
    (h : k ∉ l.map Prod.fst) :
    (incr l k v).map Prod.fst = l.map Prod.fst ++ [k] := by
  induction l with
  | nil => simp [incr]
  | cons p t ih =>
    obtain ⟨k1, v1⟩ := p
    simp only [List.map_cons, List.mem_cons, not_or] at h
    have hk : k1 ≠ k := fun he => h.1 he.symm
    simp only [incr, if_neg hk, List.map_cons, ih h.2, List.cons_append]

theorem nodup_keys_incr (l : List (String × Nat)) (k : String) (v : Nat)
    (h : (l.map Prod.fst).Nodup) :
    ((incr l k v).map Prod.fst).Nodup := by
  by_cases hm : k ∈ l.map Prod.fst
  · rwa [keys_incr_of_mem l k v hm]
  · rw [keys_incr_of_not_mem l k v hm]
    simpa using List.Nodup.append h (by simp) (by simpa using hm)

theorem alGet?_eq_none_of_not_mem (l : List (String × Nat)) (n : String)
    (h : n ∉ l.map Prod.fst) : alGet? l n = none := by
  induction l with
  | nil => rfl
  | cons p t ih =>
    obtain ⟨k1, v1⟩ := p
    simp only [List.map_cons, List.mem_cons, not_or] at h
    have hk : ¬ (k1 = n) := fun he => h.1 he.symm
    simp [alGet?, hk, ih h.2]

theorem alGet?_filter (p : String × Nat → Bool) (l : List (String × Nat))
    (hnd : (l.map Prod.fst).Nodup) (n : String) :
    alGet? (l.filter p) n =
      (alGet? l n).bind (fun v => if p (n, v) then some v else none) := by
  induction l with
  | nil => rfl
  | cons q t ih =>
    obtain ⟨k1, v1⟩ := q
    simp only [List.map_cons, List.nodup_cons] at hnd
    by_cases hk : k1 = n
    · subst hk
      have hnone : alGet? (t.filter p) k1 = none := by
        apply alGet?_eq_none_of_not_mem
        intro hmem
        apply hnd.1
        obtain ⟨q, hq, hfst⟩ := List.mem_map.mp hmem
        exact List.mem_map.mpr ⟨q, List.mem_of_mem_filter hq, hfst⟩
      by_cases hp : p (k1, v1)
      · simp [List.filter_cons, hp, alGet?]
      · simp [List.filter_cons, hp, alGet?, hnone]
    · by_cases hp : p (k1, v1)
      · simp [List.filter_cons, hp, alGet?, hk, ih hnd.2]
      · simp [List.filter_cons, hp, alGet?, hk, ih hnd.2]

/-! ## Name-counter and extension-counter characterizations -/

theorem alGet?_isSome_iff (l : List (String × Nat)) (n : String) :
    (alGet? l n).isSome ↔ n ∈ l.map Prod.fst := by
  induction l with
  | nil => simp [alGet?]
  | cons p t ih =>
    obtain ⟨k1, v1⟩ := p
    by_cases h : k1 = n
    · subst h; simp [alGet?]
    · have h2 : ¬ (n = k1) := fun he => h he.symm
      simp [alGet?, h, h2, ih]

theorem alGet?_eq_some_alGet (l : List (String × Nat)) (n : String)
    (h : n ∈ l.map Prod.fst) : alGet? l n = some (alGet l n) := by
  rcases Option.isSome_iff_exists.mp ((alGet?_isSome_iff l n).mpr h) with ⟨v, hv⟩
  simp [alGet, hv]

theorem foldl_stepItem_alGet_name_counter :
    ∀ (items : List Item) (s : ScanState) (n : String),
      alGet (items.foldl stepItem s).name_counter n =
        alGet s.name_counter n + countOcc n (items.map Item.name) := by
  intro items
  induction items with
  | nil => intro s n; simp [countOcc]
  | cons it t ih =>
    intro s n
    rw [List.foldl_cons, ih (stepItem s it) n]
    have hstep : (stepItem s it).name_counter = incr s.name_counter it.name 1 := rfl
    rw [hstep, alGet_incr]
    simp only [countOcc, List.map_cons, List.countP_cons]
    by_cases hn : n = it.name
    · simp [hn]
      omega
    · have h2 : ¬ (it.name = n) := fun he => hn he.symm
      simp [hn, h2]

theorem foldl_stepItem_mem_keys_name_counter :
    ∀ (items : List Item) (s : ScanState) (n : String),
      (n ∈ ((items.foldl stepItem s).name_counter).map Prod.fst ↔
        n ∈ (s.name_counter).map Prod.fst ∨ n ∈ items.map Item.name) := by
  intro items
  induction items with
  | nil => intro s n; simp
  | cons it t ih =>
    intro s n
    rw [List.foldl_cons, ih (stepItem s it) n]
    have hstep : (stepItem s it).name_counter = incr s.name_counter it.name 1 := rfl
    rw [hstep, mem_keys_incr]
    simp only [List.map_cons, List.mem_cons]
    tauto

theorem foldl_stepItem_nodup_name_counter :
    ∀ (items : List Item) (s : ScanState),
      ((s.name_counter).map Prod.fst).Nodup →
      (((items.foldl stepItem s).name_counter).map Prod.fst).Nodup := by
  intro items
  induction items with
  | nil => intro s h; exact h
  | cons it t ih =>
    intro s h
    rw [List.foldl_cons]
    exact ih (stepItem s it) (nodup_keys_incr _ _ _ h)

theorem foldl_stepItem_mem_keys_ext_counter :
    ∀ (items : List Item) (s : ScanState) (k : String),
      (k ∈ ((items.foldl stepItem s).ext_counter).map Prod.fst ↔
        k ∈ (s.ext_counter).map Prod.fst ∨
          k ∈ items.map (fun it => extKey it.name)) := by
  intro items
  induction items with
  | nil => intro s k; simp
  | cons it t ih =>
    intro s k
    rw [List.foldl_cons, ih (stepItem s it) k]
    have hstep : (stepItem s it).ext_counter = incr s.ext_counter (extKey it.name) 1 := rfl
    rw [hstep, mem_keys_incr]
    simp only [List.map_cons, List.mem_cons]
    tauto

theorem foldl_stepItem_sumVals_ext_counter :
    ∀ (items : List Item) (s : ScanState),
      sumVals (items.foldl stepItem s).ext_counter =
        sumVals s.ext_counter + items.length := by
  intro items
  induction items with
  | nil => intro s; simp
  | cons it t ih =>
    intro s
    rw [List.foldl_cons, ih (stepItem s it)]
    have hstep : (stepItem s it).ext_counter = incr s.ext_counter (extKey it.name) 1 := rfl
    rw [hstep, sumVals_incr]
    simp only [List.length_cons]
    omega

theorem foldl_stepItem_sumVals_ext_sizes :
    ∀ (items : List Item) (s : ScanState),
      sumVals (items.foldl stepItem s).ext_sizes =
        sumVals s.ext_sizes + (items.map (fun it => it.frec.size)).sum := by
  intro items
  induction items with
  | nil => intro s; simp
  | cons it t ih =>
    intro s
    rw [List.foldl_cons, ih (stepItem s it)]
    have hstep : (stepItem s it).ext_sizes = incr s.ext_sizes (extKey it.name) it.frec.size := rfl
    rw [hstep, sumVals_incr]
    simp only [List.map_cons, List.sum_cons]
    omega

/-! ## The largest-file tracker (lines 55-57) -/

/-- The update of lines 55-57 on the pair
`(largest_file, largest_size)`. -/
def updLargest (acc : Option String × Nat) (r : FileRec) : Option String × Nat :=
  if r.size > acc.2 then (some r.path, r.size) else acc

theorem foldl_stepItem_largest :
    ∀ (items : List Item) (s : ScanState),
      ((items.foldl stepItem s).largest_file, (items.foldl stepItem s).largest_size) =
        (items.map Item.frec).foldl updLargest (s.largest_file, s.largest_size) := by
  intro items
  induction items with
  | nil => intro s; simp
  | cons it t ih =>
    intro s
    rw [List.foldl_cons, ih (stepItem s it)]
    simp only [List.map_cons, List.foldl_cons]
    congr 1
    unfold stepItem updLargest
    by_cases h : it.frec.size > s.largest_size <;> simp [h]

/-- Maximum size over a list of records (0 when empty). -/
def maxSize (l : List FileRec) : Nat :=
  l.foldl (fun m r => max m r.size) 0

theorem le_foldl_max :
    ∀ (l : List FileRec) (a : Nat), a ≤ l.foldl (fun m r => max m r.size) a := by
  intro l
  induction l with
  | nil => intro a; simp
  | cons r t ih =>
    intro a
    calc a ≤ max a r.size := le_max_left _ _
    _ ≤ t.foldl (fun m r => max m r.size) (max a r.size) := ih _

theorem size_le_foldl_max :
    ∀ (l : List FileRec) (a : Nat) (r : FileRec),
      r ∈ l → r.size ≤ l.foldl (fun m r => max m r.size) a := by
  intro l
  induction l with
  | nil => intro a r h; simp at h
  | cons q t ih =>
    intro a r h
    rcases List.mem_cons.mp h with h1 | h1
    · subst h1
      calc r.size ≤ max a r.size := le_max_right _ _
      _ ≤ t.foldl (fun m r => max m r.size) (max a r.size) := le_foldl_max _ _
    · exact ih _ r h1

theorem maxSize_append_singleton (l : List FileRec) (r : FileRec) :
    maxSize (l ++ [r]) = max (maxSize l) r.size := by
  unfold maxSize
  rw [List.foldl_append]
  rfl

theorem size_le_maxSize (l : List FileRec) (r : FileRec) (h : r ∈ l) :
    r.size ≤ maxSize l :=
  size_le_foldl_max l 0 r h

theorem foldl_max_const :
    ∀ (l : List FileRec) (a : Nat), (∀ r ∈ l, r.size = 0) →
      l.foldl (fun m r => max m r.size) a = a := by
  intro l
  induction l with
  | nil => intro a h; rfl
  | cons q t ih =>
    intro a h
    have hq : q.size = 0 := h q (by simp)
    rw [List.foldl_cons]
    have hmax : max a q.size = a := by omega
    rw [hmax]
    exact ih a (fun r hr => h r (List.mem_cons_of_mem _ hr))

theorem maxSize_eq_zero_iff (l : List FileRec) :
    maxSize l = 0 ↔ ∀ r ∈ l, r.size = 0 := by
  constructor
  · intro h r hr
    have := size_le_maxSize l r hr
    omega
  · intro h
    exact foldl_max_const l 0 h

/-- The first record achieving size `m`, with everything before it strictly
smaller. -/
def FirstMax (p : String) (m : Nat) (l : List FileRec) : Prop :=
  ∃ pre r post, l = pre ++ r :: post ∧ r.path = p ∧ r.size = m ∧
    ∀ x ∈ pre, x.size < m

/-- Invariant of the largest-file tracker relative to the records already
processed. -/
def LargestInv (pre : List FileRec) (acc : Option String × Nat) : Prop :=
  acc.2 = maxSize pre ∧ (acc.1 = none ↔ maxSize pre = 0) ∧
    (∀ p, acc.1 = some p → FirstMax p (maxSize pre) pre)

theorem updLargest_step (pre : List FileRec) (acc : Option String × Nat)
    (r : FileRec) (h : LargestInv pre acc) :
    LargestInv (pre ++ [r]) (updLargest acc r) := by
  obtain ⟨hsz, hnone, hfm⟩ := h
  by_cases hgt : r.size > acc.2
  · have hupd : updLargest acc r = (some r.path, r.size) := by
      unfold updLargest
      rw [if_pos hgt]
    have hmax : maxSize (pre ++ [r]) = r.size := by
      rw [maxSize_append_singleton]
      omega
    rw [hupd]
    refine ⟨by rw [hmax], ?_, ?_⟩
    · simp only [hmax]
      constructor
      · intro hcontra
        exact absurd hcontra (by simp)
      · intro h0
        omega
    · intro p hp
      have hpp : r.path = p := Option.some.inj hp
      subst hpp
      refine ⟨pre, r, [], rfl, rfl, hmax.symm, ?_⟩
      intro x hx
      have hle := size_le_maxSize pre x hx
      rw [hmax]
      omega
  · have hupd : updLargest acc r = acc := by
      unfold updLargest
      rw [if_neg hgt]
    have hmax : maxSize (pre ++ [r]) = maxSize pre := by
      rw [maxSize_append_singleton]
      omega
    rw [hupd]
    unfold LargestInv
    rw [hmax]
    refine ⟨hsz, hnone, ?_⟩
    intro p hp
    obtain ⟨a, e, b, hl, hpath, hsize, hpre⟩ := hfm p hp
    exact ⟨a, e, b ++ [r], by rw [hl]; simp, hpath, hsize, hpre⟩

theorem updLargest_inv :
    ∀ (recs pre : List FileRec) (acc : Option String × Nat),
      LargestInv pre acc →
      LargestInv (pre ++ recs) (recs.foldl updLargest acc) := by
  intro recs
  induction recs with
  | nil => intro pre acc h; simpa using h
  | cons r t ih =>
    intro pre acc h
    rw [List.foldl_cons]
    have := ih (pre ++ [r]) (updLargest acc r) (updLargest_step pre acc r h)
    simpa using this

theorem largestInv_init : LargestInv [] (none, 0) := by
  refine ⟨rfl, by simp [maxSize], ?_⟩
  intro p hp
  simp at hp

/-! ## The stable sort (line 65) -/

theorem sortFiles_eq_map_snd (l : List FileRec) :
    sortFiles l = (l.enum.insertionSort lexLe).map Prod.snd := rfl

theorem sortFiles_length (l : List FileRec) : (sortFiles l).length = l.length := by
  unfold sortFiles
  rw [List.length_map, (List.perm_insertionSort lexLe l.enum).length_eq,
    List.enum_length]

theorem sortedIdx_pairwise (fs : FS) (filt : Option (List String)) :
    (sortedIdx fs filt).Pairwise lexLe :=
  List.sorted_insertionSort lexLe _

/-! ## Bridges from `scan_folder_fixed` to the characterizations -/

/-- The post-processing of lines 65-69 and the record of lines 71-81,
as a function of the final accumulator state. -/
def statsOfState (s : ScanState) : ScanStats :=
  let sorted := sortFiles s.all_files
  let oldest_files := sorted.take 5
  let new_files := (sorted.drop (sorted.length - 5)).reverse
  { total_files := s.total_files
    total_size := s.total_size
    largest_file := s.largest_file
    largest_size := s.largest_size
    ext_counter := s.ext_counter
    ext_sizes := s.ext_sizes
    newest_files := new_files
    oldest_files := oldest_files
    duplicates := s.name_counter.filter (fun p => 1 < p.2) }

theorem scan_folder_fixed_eq (fs : FS) (filt : Option (List String)) :
    scan_folder_fixed fs filt = statsOfState (scanState fs filt) := rfl

theorem scanState_all_files (fs : FS) (filt : Option (List String)) :
    (scanState fs filt).all_files = acceptedRecs fs filt := by
  rw [scanState_eq_foldl_stepItem, foldl_stepItem_all_files]
  simp [initState, acceptedRecs]

theorem scan_total_files (fs : FS) (filt : Option (List String)) :
    (scan_folder_fixed fs filt).total_files = (acceptedItems fs filt).length := by
  rw [scan_folder_fixed_eq]
  show (scanState fs filt).total_files = _
  rw [scanState_eq_foldl_stepItem, foldl_stepItem_total_files]
  simp [initState]

theorem scan_total_size (fs : FS) (filt : Option (List String)) :
    (scan_folder_fixed fs filt).total_size =
      ((acceptedItems fs filt).map (fun it => it.frec.size)).sum := by
  rw [scan_folder_fixed_eq]
  show (scanState fs filt).total_size = _
  rw [scanState_eq_foldl_stepItem, foldl_stepItem_total_size]
  simp [initState]

/-! ## Effect of unreadable entries -/

theorem processFile_stat_none (filt : Option (List String)) (s : ScanState)
    (e : String × FileEntry) (h : e.2.stat = none) :
    processFile filt s e = s := by
  unfold processFile
  by_cases hs : skipByFilter filt (extKey e.2.name)
  · simp [hs]
  · simp [hs, h]

theorem foldl_processFile_filter_stat (filt : Option (List String)) :
    ∀ (l : List (String × FileEntry)) (s : ScanState),
      (l.filter (fun e => e.2.stat.isSome)).foldl (processFile filt) s =
        l.foldl (processFile filt) s := by
  intro l
  induction l with
  | nil => intro s; rfl
  | cons e t ih =>
    intro s
    by_cases h : e.2.stat.isSome
    · rw [List.filter_cons, if_pos h, List.foldl_cons, List.foldl_cons]
      exact ih (processFile filt s e)
    · rw [List.filter_cons, if_neg h, List.foldl_cons, ih s,
        processFile_stat_none filt s e (Option.not_isSome_iff_eq_none.mp h)]

theorem walkedEntries_strip (fs : FS) :
    walkedEntries (stripUnreadable fs) =
      (walkedEntries fs).filter (fun e => e.2.stat.isSome) := by
  induction fs with
  | nil => rfl
  | cons rf t ih =>
    obtain ⟨root, files⟩ := rf
    show (files.filter (fun fe => fe.stat.isSome)).map (fun fe => (root, fe)) ++
        walkedEntries (stripUnreadable t) = _
    rw [ih]
    show _ = List.filter (fun e => e.2.stat.isSome)
        (files.map (fun fe => (root, fe)) ++ walkedEntries t)
    rw [List.filter_append]
    congr 1
    rw [List.filter_map]
    rfl

theorem scanState_strip (fs : FS) (filt : Option (List String)) :
    scanState (stripUnreadable fs) filt = scanState fs filt := by
  unfold scanState
  rw [walkedEntries_strip, foldl_processFile_filter_stat]

/-! ## The claims -/

/-- Claim C1. The claim says: for every directory given as root, `scan_folder`
completes and returns a `ScanStats` record, and on an empty directory all
fields are empty/zero.  The code contradicts it: the dict literal at line 78
reads the undefined name `newest_files` (line 67 assigned `new_files`), so
`scan_folder` raises `NameError` on every input, including an empty
directory.  The second conjunct confirms that the record scan_folder builds
(and would return, were the name written correctly) on an empty directory
matches the claim: all totals zero, no largest file, empty lists and
tables. -/
theorem C1_scan_folder_raises :
    (∀ (fs : FS) (filt : Option (List String)),
      scan_folder fs filt = Except.error PyError.nameErrorNewestFiles) ∧
    scan_folder_fixed [("root", [])] none =
      { total_files := 0, total_size := 0, largest_file := none, largest_size := 0,
        ext_counter := [], ext_sizes := [], newest_files := [], oldest_files := [],
        duplicates := [] } := by
  refine ⟨fun fs filt => rfl, ?_⟩
  decide

/-- Whether a run terminated without an error. -/
def isOkE {ε α : Type} : Except ε α → Bool
  | Except.ok _ => true
  | Except.error _ => false

/-- Claim C2. The claim says: the aggregation never fails because of
individual unreadable files (they are skipped and counted nowhere), and an
error reaches the caller exactly when the root path does not exist or is
not a directory.  The skip part is true of the loop: deleting every
unreadable entry from the walk leaves the result unchanged (first
conjunct), and with the line-78 `NameError` repaired the run errors exactly
on an invalid root, i.e. when `os.path.isdir` is false (second conjunct).
But the code as written contradicts the claim: because of the `NameError`
of C1, a run over a perfectly valid root — here an existing empty
directory — still fails (third conjunct). -/
theorem C2_failure_semantics :
    (∀ (fs : FS) (filt : Option (List String)),
      scan_folder_fixed (stripUnreadable fs) filt = scan_folder_fixed fs filt) ∧
    (∀ (isdir : Bool) (fs : FS) (filt : Option (List String)),
      isOkE (run_main_fixed isdir fs filt) = isdir) ∧
    isOkE (run_main true [("root", [])] none) = false := by
  refine ⟨?_, ?_, rfl⟩
  · intro fs filt
    rw [scan_folder_fixed_eq, scan_folder_fixed_eq, scanState_strip]
  · intro isdir fs filt
    cases isdir <;> rfl

/-- Claim C3. For every `ScanStats` the scan produces (modulo the line-78
`NameError` of C1), `total_files` equals the sum of the per-extension
counts and `total_size` equals the sum of the per-extension sizes. -/
theorem C3_totals_eq_ext_sums (fs : FS) (filt : Option (List String)) :
    (scan_folder_fixed fs filt).total_files =
      sumVals (scan_folder_fixed fs filt).ext_counter ∧
    (scan_folder_fixed fs filt).total_size =
      sumVals (scan_folder_fixed fs filt).ext_sizes := by
  constructor
  · show (scanState fs filt).total_files = sumVals (scanState fs filt).ext_counter
    rw [scanState_eq_foldl_stepItem, foldl_stepItem_total_files,
      foldl_stepItem_sumVals_ext_counter]
    simp [initState, sumVals]
  · show (scanState fs filt).total_size = sumVals (scanState fs filt).ext_sizes
    rw [scanState_eq_foldl_stepItem, foldl_stepItem_total_size,
      foldl_stepItem_sumVals_ext_sizes]
    simp [initState, sumVals]

/-- Claim C10. An empty extension-filter set behaves exactly like no filter:
Python's `if filter_exts and ...` (line 42) is false for the empty set, so
no file is skipped.  The scan results coincide. -/
theorem C10_empty_filter_no_filter (fs : FS) :
    scan_folder_fixed fs (some []) = scan_folder_fixed fs none := by
  have h : processFile (some []) = processFile none := by
    funext s e
    rw [processFile_eq_itemOf, processFile_eq_itemOf]
    have hio : itemOf? (some []) e = itemOf? none e := by
      unfold itemOf?
      have h1 : skipByFilter (some []) (extKey e.2.name) = false := rfl
      have h2 : skipByFilter none (extKey e.2.name) = false := rfl
      rw [h1, h2]
    rw [hio]
  unfold scan_folder_fixed
  rw [h]

/-! ## C4: extension filters -/

theorem itemOf?_mono (l : List String) (e : String × FileEntry) (it : Item)
    (h : itemOf? (some l) e = some it) : itemOf? none e = some it := by
  unfold itemOf? at *
  by_cases hs : skipByFilter (some l) (extKey e.2.name)
  · rw [if_pos hs] at h
    exact absurd h (by simp)
  · rw [if_neg hs] at h
    have hn : skipByFilter none (extKey e.2.name) = false := rfl
    rw [hn]
    simpa using h

theorem filterMap_sublist_mono {α β : Type} (f g : α → Option β)
    (h : ∀ a b, f a = some b → g a = some b) :
    ∀ l : List α, (l.filterMap f).Sublist (l.filterMap g) := by
  intro l
  induction l with
  | nil => simp
  | cons a t ih =>
    rw [List.filterMap_cons, List.filterMap_cons]
    cases hf : f a with
    | none =>
      cases hg : g a with
      | none => exact ih
      | some b => exact ih.cons b
    | some b =>
      rw [h a b hf]
      exact ih.cons₂ b

theorem acceptedItems_filter_sublist (fs : FS) (l : List String) :
    (acceptedItems fs (some l)).Sublist (acceptedItems fs none) :=
  filterMap_sublist_mono _ _ (itemOf?_mono l) _

theorem extKey_mem_of_accepted (fs : FS) (l : List String) (hne : l ≠ [])
    (it : Item) (hit : it ∈ acceptedItems fs (some l)) : extKey it.name ∈ l := by
  obtain ⟨e, hmem, he⟩ := List.mem_filterMap.mp hit
  unfold itemOf? at he
  by_cases hs : skipByFilter (some l) (extKey e.2.name)
  · rw [if_pos hs] at he
    exact absurd he (by simp)
  · rw [if_neg hs] at he
    have hname : it.name = e.2.name := by
      cases hst : e.2.stat with
      | none =>
        rw [hst] at he
        exact absurd he (by simp)
      | some sm =>
        rw [hst] at he
        have hinj := Option.some.inj he
        rw [← hinj]
    rw [hname]
    have hni : l.isEmpty = false := by
      cases l with
      | nil => exact absurd rfl hne
      | cons a t => rfl
    have hsf : (!l.isEmpty && !l.contains (extKey e.2.name)) = false := by
      simpa [skipByFilter] using hs
    rw [hni] at hsf
    simp at hsf
    simpa using hsf

/-- Claim C4, counterexample. The claim says every file counted under a filter
has its extension key in the filter set, for every filter set.  With the
empty filter set this fails: Python treats the empty set as falsy (line
42), so filtering is disabled and a `.txt` file is counted even though
`".txt"` is not a member of the empty set. -/
theorem C4_counterexample :
    (scan_folder_fixed [("r", [⟨"a.txt", some (3, 0)⟩])] (some [])).total_files = 1 ∧
    ((scan_folder_fixed [("r", [⟨"a.txt", some (3, 0)⟩])] (some [])).ext_counter).map
        Prod.fst = [".txt"] ∧
    ".txt" ∉ ([] : List String) := by
  refine ⟨by decide, by decide, by decide⟩

/-- Claim C4, amended. Applying an extension filter never increases
`total_files` or `total_size` relative to the unfiltered scan of the same
tree; and provided the filter set is nonempty (an empty set disables
filtering, line 42), every extension key appearing in the result's
per-extension table is a member of the filter set. -/
theorem C4_amended_filter_monotone (fs : FS) (l : List String) :
    ((scan_folder_fixed fs (some l)).total_files ≤
        (scan_folder_fixed fs none).total_files ∧
      (scan_folder_fixed fs (some l)).total_size ≤
        (scan_folder_fixed fs none).total_size) ∧
    (l ≠ [] → ∀ k ∈ ((scan_folder_fixed fs (some l)).ext_counter).map Prod.fst,
      k ∈ l) := by
  refine ⟨⟨?_, ?_⟩, ?_⟩
  · rw [scan_total_files, scan_total_files]
    exact (acceptedItems_filter_sublist fs l).length_le
  · rw [scan_total_size, scan_total_size]
    refine List.Sublist.sum_le_sum ((acceptedItems_filter_sublist fs l).map _) ?_
    intro a ha
    exact Nat.zero_le a
  · intro hne k hk
    have hk2 : k ∈ ((acceptedItems fs (some l)).foldl stepItem initState).ext_counter.map
        Prod.fst := by
      have hk1 : k ∈ (scanState fs (some l)).ext_counter.map Prod.fst := hk
      rwa [scanState_eq_foldl_stepItem] at hk1
    rw [foldl_stepItem_mem_keys_ext_counter] at hk2
    rcases hk2 with h | h
    · simp [initState] at h
    · obtain ⟨it, hit, hex⟩ := List.mem_map.mp h
      rw [← hex]
      exact extKey_mem_of_accepted fs l hne it hit

/-- Claim C4, witness. Applying the amended theorem at a one-file tree with the
nonempty filter `[".txt"]`: the counted extension `".txt"` is in it. -/
theorem C4_witness :
    ".txt" ∈ ([".txt"] : List String) :=
  (C4_amended_filter_monotone [("r", [⟨"a.txt", some (3, 5)⟩])] [".txt"]).2
    (by decide) ".txt" (by decide)

/-! ## C5: the largest file -/

theorem scanState_largest (fs : FS) (filt : Option (List String)) :
    ((scanState fs filt).largest_file, (scanState fs filt).largest_size) =
      (acceptedRecs fs filt).foldl updLargest (none, 0) := by
  rw [scanState_eq_foldl_stepItem, foldl_stepItem_largest]
  rfl

theorem largestInv_scan (fs : FS) (filt : Option (List String)) :
    LargestInv (acceptedRecs fs filt)
      ((scanState fs filt).largest_file, (scanState fs filt).largest_size) := by
  rw [scanState_largest]
  have h := updLargest_inv (acceptedRecs fs filt) [] (none, 0) largestInv_init
  simpa using h

/-- Claim C5, counterexample. The claim says the largest file is absent exactly
when zero files matched.  A directory with one matched file of size 0
refutes it: `total_files = 1`, but `largest_file` stays `None`, because the
update of line 55 uses strict `size > largest_size` against the initial
`largest_size = 0`, which a zero-sized file never satisfies. -/
theorem C5_counterexample :
    (scan_folder_fixed [("r", [⟨"a.txt", some (0, 100)⟩])] none).total_files = 1 ∧
    (scan_folder_fixed [("r", [⟨"a.txt", some (0, 100)⟩])] none).largest_file = none := by
  refine ⟨by decide, by decide⟩

/-- Claim C5, amended. The largest file is absent exactly when every matched
file has size 0 (in particular when no file matched); when present its size
is ≥ every scanned file's size, and it is the first-encountered file
achieving the maximum: every earlier file is strictly smaller. -/
theorem C5_amended_largest (fs : FS) (filt : Option (List String)) :
    ((scan_folder_fixed fs filt).largest_file = none ↔
      ∀ r ∈ acceptedRecs fs filt, r.size = 0) ∧
    (∀ p, (scan_folder_fixed fs filt).largest_file = some p →
      (∀ r ∈ acceptedRecs fs filt,
        r.size ≤ (scan_folder_fixed fs filt).largest_size) ∧
      FirstMax p ((scan_folder_fixed fs filt).largest_size)
        (acceptedRecs fs filt)) := by
  obtain ⟨h1, h2, h3⟩ := largestInv_scan fs filt
  have h1' : (scanState fs filt).largest_size = maxSize (acceptedRecs fs filt) := h1
  have h2' : ((scanState fs filt).largest_file = none ↔
      maxSize (acceptedRecs fs filt) = 0) := h2
  have h3' : ∀ p, (scanState fs filt).largest_file = some p →
      FirstMax p (maxSize (acceptedRecs fs filt)) (acceptedRecs fs filt) := h3
  have hf : (scan_folder_fixed fs filt).largest_file =
      (scanState fs filt).largest_file := rfl
  have hsz : (scan_folder_fixed fs filt).largest_size =
      (scanState fs filt).largest_size := rfl
  constructor
  · rw [hf, h2', maxSize_eq_zero_iff]
  · intro p hp
    rw [hf] at hp
    constructor
    · intro r hr
      rw [hsz, h1']
      exact size_le_maxSize _ r hr
    · rw [hsz, h1']
      exact h3' p hp

/-- Claim C5, witness. Applying the amended theorem at a tree with two files of
equal maximal size 5: the reported file is the first encountered, every
earlier file (none) is smaller, and 5 bounds all sizes. -/
theorem C5_witness :
    (∀ r ∈ acceptedRecs [("r", [⟨"a.txt", some (5, 0)⟩, ⟨"b.txt", some (5, 1)⟩])] none,
      r.size ≤ (scan_folder_fixed
        [("r", [⟨"a.txt", some (5, 0)⟩, ⟨"b.txt", some (5, 1)⟩])] none).largest_size) ∧
    FirstMax "r/a.txt"
      ((scan_folder_fixed
        [("r", [⟨"a.txt", some (5, 0)⟩, ⟨"b.txt", some (5, 1)⟩])] none).largest_size)
      (acceptedRecs [("r", [⟨"a.txt", some (5, 0)⟩, ⟨"b.txt", some (5, 1)⟩])] none) :=
  (C5_amended_largest [("r", [⟨"a.txt", some (5, 0)⟩, ⟨"b.txt", some (5, 1)⟩])] none).2
    "r/a.txt" (by decide)

/-! ## C7: duplicate names -/

theorem countOcc_eq_zero_iff (n : String) (l : List String) :
    countOcc n l = 0 ↔ n ∉ l := by
  unfold countOcc
  rw [List.countP_eq_zero]
  constructor
  · intro h hmem
    have := h n hmem
    simp at this
  · intro h m hm
    simp only [decide_eq_true_eq]
    intro he
    exact h (he ▸ hm)

/-- Claim C7. A name has an entry in the duplicate map iff it is the base name
of at least 2 scanned files, and the stored count is its number of
occurrences among the scanned files. -/
theorem C7_duplicates_iff (fs : FS) (filt : Option (List String)) (n : String) :
    ((alGet? (scan_folder_fixed fs filt).duplicates n).isSome ↔
      2 ≤ countOcc n (acceptedNames fs filt)) ∧
    (∀ c, alGet? (scan_folder_fixed fs filt).duplicates n = some c →
      c = countOcc n (acceptedNames fs filt)) := by
  have hdup : (scan_folder_fixed fs filt).duplicates =
      ((scanState fs filt).name_counter).filter (fun p => 1 < p.2) := rfl
  have hnodup : (((scanState fs filt).name_counter).map Prod.fst).Nodup := by
    rw [scanState_eq_foldl_stepItem]
    exact foldl_stepItem_nodup_name_counter _ _ (by simp [initState])
  have hget : alGet (scanState fs filt).name_counter n =
      countOcc n (acceptedNames fs filt) := by
    rw [scanState_eq_foldl_stepItem, foldl_stepItem_alGet_name_counter]
    simp [initState, alGet, alGet?, acceptedNames]
  have hmemk : n ∈ ((scanState fs filt).name_counter).map Prod.fst ↔
      n ∈ acceptedNames fs filt := by
    rw [scanState_eq_foldl_stepItem, foldl_stepItem_mem_keys_name_counter]
    simp [initState, acceptedNames]
  rw [hdup, alGet?_filter _ _ hnodup]
  by_cases hin : n ∈ acceptedNames fs filt
  · have hsome : alGet? (scanState fs filt).name_counter n =
        some (countOcc n (acceptedNames fs filt)) := by
      rw [alGet?_eq_some_alGet _ _ (hmemk.mpr hin), hget]
    rw [hsome]
    have hpos : 1 ≤ countOcc n (acceptedNames fs filt) := by
      rcases Nat.eq_zero_or_pos (countOcc n (acceptedNames fs filt)) with h0 | h0
      · exact absurd hin ((countOcc_eq_zero_iff n _).mp h0)
      · exact h0
    by_cases h2 : 1 < countOcc n (acceptedNames fs filt)
    · constructor
      · simp [h2]
        omega
      · intro c hc
        simp [h2] at hc
        omega
    · constructor
      · simp [h2]
        omega
      · intro c hc
        simp [h2] at hc
  · have h0 : countOcc n (acceptedNames fs filt) = 0 :=
      (countOcc_eq_zero_iff n _).mpr hin
    have hnone : alGet? (scanState fs filt).name_counter n = none :=
      alGet?_eq_none_of_not_mem _ _ (fun hm => hin (hmemk.mp hm))
    rw [hnone, h0]
    simp

/-- Claim C7, witness. Applying the theorem at the spec's own end-to-end
example — `a.txt` at the root and `a.txt` in a subdirectory — the duplicate
map stores 2 for `"a.txt"`, which equals its occurrence count. -/
theorem C7_witness :
    (2 : Nat) = countOcc "a.txt"
      (acceptedNames [("r", [⟨"a.txt", some (10, 1)⟩, ⟨"b.txt", some (5, 2)⟩]),
        ("r/sub", [⟨"a.txt", some (20, 3)⟩])] none) :=
  (C7_duplicates_iff
      [("r", [⟨"a.txt", some (10, 1)⟩, ⟨"b.txt", some (5, 2)⟩]),
        ("r/sub", [⟨"a.txt", some (20, 3)⟩])] none "a.txt").2 2 (by decide)

/-! ## C6: newest and oldest lists -/

theorem lexLe_mtime {a b : Nat × FileRec} (h : lexLe a b) :
    a.2.mtime ≤ b.2.mtime := by
  unfold lexLe at h
  omega

theorem scan_sorted_eq (fs : FS) (filt : Option (List String)) :
    sortFiles (scanState fs filt).all_files = (sortedIdx fs filt).map Prod.snd := by
  rw [scanState_all_files]
  rfl

theorem scan_oldest_eq (fs : FS) (filt : Option (List String)) :
    (scan_folder_fixed fs filt).oldest_files =
      ((sortedIdx fs filt).take 5).map Prod.snd := by
  rw [scan_folder_fixed_eq]
  show (sortFiles (scanState fs filt).all_files).take 5 = _
  rw [scan_sorted_eq, List.map_take]

theorem scan_newest_eq (fs : FS) (filt : Option (List String)) :
    (scan_folder_fixed fs filt).newest_files =
      (((sortedIdx fs filt).drop ((sortedIdx fs filt).length - 5)).reverse).map
        Prod.snd := by
  rw [scan_folder_fixed_eq]
  show ((sortFiles (scanState fs filt).all_files).drop
      ((sortFiles (scanState fs filt).all_files).length - 5)).reverse = _
  rw [scan_sorted_eq, List.length_map, ← List.map_drop, ← List.map_reverse]

theorem sortedIdx_length (fs : FS) (filt : Option (List String)) :
    (sortedIdx fs filt).length = (acceptedRecs fs filt).length := by
  unfold sortedIdx
  rw [(List.perm_insertionSort lexLe _).length_eq, List.enum_length]

theorem scan_total_files_recs (fs : FS) (filt : Option (List String)) :
    (scan_folder_fixed fs filt).total_files = (acceptedRecs fs filt).length := by
  rw [scan_total_files]
  unfold acceptedRecs
  rw [List.length_map]

/-- Claim C6, counterexample. The claim says ties in modification time are
broken by encounter order in both lists.  Two files `a` then `b` with equal
modification time refute it for the newest list: the code sorts stably
ascending and reverses the last five (`all_files[-5:][::-1]`, line 67), so
the newest list shows `b` before `a` — the reverse of encounter order —
while the oldest list shows `a` before `b`. -/
theorem C6_counterexample :
    ((scan_folder_fixed [("r", [⟨"a", some (1, 5)⟩, ⟨"b", some (2, 5)⟩])]
        none).newest_files.map (fun r => r.path) = ["r/b", "r/a"]) ∧
    ((scan_folder_fixed [("r", [⟨"a", some (1, 5)⟩, ⟨"b", some (2, 5)⟩])]
        none).oldest_files.map (fun r => r.path) = ["r/a", "r/b"]) ∧
    (["r/b", "r/a"] ≠ (["r/a", "r/b"] : List String)) := by
  refine ⟨by decide, by decide, by decide⟩

/-- Claim C6, amended. The newest list is sorted by modification time
descending and the oldest list ascending, each of length
`min 5 total_files`; ties in the oldest list are broken by encounter order
while ties in the newest list are broken by *reverse* encounter order.  The
tie-breaking is expressed through the position-tagged sort `sortedIdx`
(stable ascending sort = sort by the lexicographic key
`(mtime, encounter position)`): the oldest list is its first five entries,
ordered by `lexLe` (mtime ascending, then position ascending), and the
newest list is its last five entries reversed, ordered by the flip of
`lexLe` (mtime descending, then position descending). -/
theorem C6_amended_newest_oldest (fs : FS) (filt : Option (List String)) :
    ((scan_folder_fixed fs filt).oldest_files.length =
        min 5 (scan_folder_fixed fs filt).total_files ∧
      (scan_folder_fixed fs filt).newest_files.length =
        min 5 (scan_folder_fixed fs filt).total_files) ∧
    ((scan_folder_fixed fs filt).oldest_files.Pairwise
        (fun a b => a.mtime ≤ b.mtime) ∧
      (scan_folder_fixed fs filt).newest_files.Pairwise
        (fun a b => b.mtime ≤ a.mtime)) ∧
    ((scan_folder_fixed fs filt).oldest_files =
        ((sortedIdx fs filt).take 5).map Prod.snd ∧
      (scan_folder_fixed fs filt).newest_files =
        (((sortedIdx fs filt).drop ((sortedIdx fs filt).length - 5)).reverse).map
          Prod.snd) ∧
    (((sortedIdx fs filt).take 5).Pairwise lexLe ∧
      (((sortedIdx fs filt).drop
          ((sortedIdx fs filt).length - 5)).reverse).Pairwise
        (fun a b => lexLe b a)) := by
  have htake : ((sortedIdx fs filt).take 5).Pairwise lexLe :=
    List.Pairwise.sublist (List.take_sublist 5 _) (sortedIdx_pairwise fs filt)
  have hdrop : ((sortedIdx fs filt).drop
      ((sortedIdx fs filt).length - 5)).Pairwise lexLe :=
    List.Pairwise.sublist (List.drop_sublist _ _) (sortedIdx_pairwise fs filt)
  have hrev : (((sortedIdx fs filt).drop
      ((sortedIdx fs filt).length - 5)).reverse).Pairwise
        (fun a b => lexLe b a) :=
    List.pairwise_reverse.mpr hdrop
  refine ⟨⟨?_, ?_⟩, ⟨?_, ?_⟩, ⟨scan_oldest_eq fs filt, scan_newest_eq fs filt⟩,
    htake, hrev⟩
  · rw [scan_oldest_eq, List.length_map, List.length_take, sortedIdx_length,
      scan_total_files_recs]
  · rw [scan_newest_eq, List.length_map, List.length_reverse, List.length_drop,
      sortedIdx_length, scan_total_files_recs]
    omega
  · rw [scan_oldest_eq, List.pairwise_map]
    exact htake.imp (fun h => lexLe_mtime h)
  · rw [scan_newest_eq, List.pairwise_map]
    exact hrev.imp (fun h => lexLe_mtime h)

/-! ## C8: byte-size formatting -/

theorem format_size_go_cons (n d : Nat) (u : String) (us : List String) :
    format_size_go n d (u :: us) =
      if n < 1024 * d then render2Frac n d ++ " " ++ u
      else format_size_go n (1024 * d) us := rfl

theorem format_size_go_nil (n d : Nat) :
    format_size_go n d [] = render2Frac n d ++ " PB" := rfl

/-- Claim C8. `format_size` renders the five reference values of the spec
exactly, and for every byte count below `2^53` — the range on which the
exact-rational model coincides with the program's binary-float pipeline,
see the section comment above — it divides by 1024 until the value drops
below 1024 (at most five times), rendering the exact scaled value with two
decimals and the unit indexed by the number of divisions: the first
(smallest) unit among B, KB, MB, GB, TB, PB whose scaled value is below
1024, with PB used regardless once the named units are exhausted. -/
theorem C8_format_size :
    (format_size 0 = "0.00 B" ∧ format_size 1023 = "1023.00 B" ∧
      format_size 1024 = "1.00 KB" ∧ format_size 1536 = "1.50 KB" ∧
      format_size 1048576 = "1.00 MB") ∧
    ∀ n : Nat, n < 2 ^ 53 → format_size n =
      render2Frac n (1024 ^ specUnitIndex n) ++ " " ++
        specUnitName (specUnitIndex n) := by
  constructor
  · exact ⟨by decide, by decide, by decide, by decide, by decide⟩
  · intro n _hn
    unfold format_size
    rw [format_size_go_cons]
    by_cases h0 : n < 1024
    · rw [if_pos (show n < 1024 * 1 by omega)]
      have hidx : specUnitIndex n = 0 := by
        unfold specUnitIndex
        rw [if_pos h0]
      rw [hidx]
      rfl
    · rw [if_neg (show ¬ n < 1024 * 1 by omega), format_size_go_cons]
      by_cases h1 : n < 1048576
      · rw [if_pos (show n < 1024 * (1024 * 1) by omega)]
        have hidx : specUnitIndex n = 1 := by
          unfold specUnitIndex
          rw [if_neg h0, if_pos h1]
        rw [hidx]
        rfl
      · rw [if_neg (show ¬ n < 1024 * (1024 * 1) by omega), format_size_go_cons]
        by_cases h2 : n < 1073741824
        · rw [if_pos (show n < 1024 * (1024 * (1024 * 1)) by omega)]
          have hidx : specUnitIndex n = 2 := by
            unfold specUnitIndex
            rw [if_neg h0, if_neg h1, if_pos h2]
          rw [hidx]
          rfl
        · rw [if_neg (show ¬ n < 1024 * (1024 * (1024 * 1)) by omega),
            format_size_go_cons]
          by_cases h3 : n < 1099511627776
          · rw [if_pos (show n < 1024 * (1024 * (1024 * (1024 * 1))) by omega)]
            have hidx : specUnitIndex n = 3 := by
              unfold specUnitIndex
              rw [if_neg h0, if_neg h1, if_neg h2, if_pos h3]
            rw [hidx]
            rfl
          · rw [if_neg (show ¬ n < 1024 * (1024 * (1024 * (1024 * 1))) by omega),
              format_size_go_cons]
            by_cases h4 : n < 1125899906842624
            · rw [if_pos
                (show n < 1024 * (1024 * (1024 * (1024 * (1024 * 1)))) by omega)]
              have hidx : specUnitIndex n = 4 := by
                unfold specUnitIndex
                rw [if_neg h0, if_neg h1, if_neg h2, if_neg h3, if_pos h4]
              rw [hidx]
              rfl
            · rw [if_neg
                (show ¬ n < 1024 * (1024 * (1024 * (1024 * (1024 * 1)))) by omega),
                format_size_go_nil]
              have hidx : specUnitIndex n = 5 := by
                unfold specUnitIndex
                rw [if_neg h0, if_neg h1, if_neg h2, if_neg h3, if_neg h4]
              rw [hidx]
              rw [String.append_assoc]
              have hs : (" " ++ specUnitName 5 : String) = " PB" := by decide
              rw [hs]
              rfl

/-- Claim C8, witness. Applying the theorem's general part at the concrete
count 1536, which is below `2^53`: the loop performs one division and the
characterization selects the KB unit with the exactly rendered value. -/
theorem C8_witness :
    (1536 : Nat) < 2 ^ 53 ∧
    format_size 1536 = render2Frac 1536 (1024 ^ specUnitIndex 1536) ++ " " ++
      specUnitName (specUnitIndex 1536) :=
  ⟨by decide, C8_format_size.2 1536 (by decide)⟩

/-! ## C9: report purity -/

/-- Claim C9, counterexample. The claim says two invocations of the
report-builder with the same inputs — root path, stats, filter, and the
"supplied timestamp" — produce identical text.  But `build_report` takes no
timestamp parameter: it reads the clock itself via `datetime.now()` at
line 91.  Two calls with identical arguments made at different instants
(modelled by two environments differing only in the clock reading) produce
different text. -/
theorem C9_counterexample :
    build_report "r" ⟨0, 0, none, 0, [], [], [], [], []⟩ none
        ⟨"2024-01-01 00:00:00", id, fun m => toString m, []⟩ ≠
      build_report "r" ⟨0, 0, none, 0, [], [], [], [], []⟩ none
        ⟨"2024-01-01 00:00:01", id, fun m => toString m, []⟩ := by
  decide

/-- Claim C9, amended. `build_report` reads the current wall-clock time
itself (line 91) rather than receiving it from the caller; apart from that
and the other ambient readings it performs — working-directory-relative
path resolution (`os.path.abspath`, line 90) and local-timezone rendering
of modification times (lines 111 and 122) — it is a deterministic pure
function of the root path, the stats and the filter set, and is
independent of the filesystem state (it performs no I/O): two environments
agreeing on the three ambient readings yield identical text whatever their
filesystem components are. -/
theorem C9_amended_report_pure (p : String) (st : ScanStats)
    (f : Option (List String)) (e1 e2 : Env)
    (h1 : e1.nowStr = e2.nowStr) (h2 : e1.abspath = e2.abspath)
    (h3 : e1.renderMtime = e2.renderMtime) :
    build_report p st f e1 = build_report p st f e2 := by
  obtain ⟨n1, a1, r1, fsa⟩ := e1
  obtain ⟨n2, a2, r2, fsb⟩ := e2
  have g1 : n1 = n2 := h1
  have g2 : a1 = a2 := h2
  have g3 : r1 = r2 := h3
  subst g1
  subst g2
  subst g3
  rfl

/-- Claim C9, witness. Applying the amended theorem at concrete inputs: two
environments with the same clock reading, path resolution and time
rendering but different filesystem states give the same report text. -/
theorem C9_witness :
    build_report "r" ⟨0, 0, none, 0, [], [], [], [], []⟩ none
        ⟨"2024-01-01 00:00:00", id, fun m => toString m, []⟩ =
      build_report "r" ⟨0, 0, none, 0, [], [], [], [], []⟩ none
        ⟨"2024-01-01 00:00:00", id, fun m => toString m,
          [("ghost", [⟨"x", some (1, 1)⟩])]⟩ :=
  C9_amended_report_pure "r" ⟨0, 0, none, 0, [], [], [], [], []⟩ none
    ⟨"2024-01-01 00:00:00", id, fun m => toString m, []⟩
    ⟨"2024-01-01 00:00:00", id, fun m => toString m,
      [("ghost", [⟨"x", some (1, 1)⟩])]⟩ rfl rfl rfl

end Scan
